import Mathlib

/-!
Verification of the bencode decoder in `src/Bdecode.py` (class `Bdecode`).

The decoder owns an immutable byte buffer (`self._data`, a Python `bytes`)
and a mutable integer cursor (`self._index`).  We embed it as pure
functions over `(data : List Byte, index : Nat)`, returning the decoded
value together with the new cursor, or an error mirroring the Python
exception that the corresponding code path raises.  Recursion is made
total with an explicit fuel parameter; the public entry point supplies
fuel `2 * data.length + 2`, which is ample for every input exercised by a
theorem in this file (the fuel-exhaustion outcome `Err.outOfFuel` is an
artifact of the embedding, distinct from every modelled Python exception).
-/

namespace BEncoding

/-- A byte of the buffer: an element of a Python `bytes` object (0..255). -/
abbrev Byte := Nat

/-- Decoded values.  `Bdecode.decode` can return a Python `int`, `bytes`,
`list`, `OrderedDict` (modelled as an ordered association list) or `None`
(the branch taken when the dispatched byte is the terminator). -/
inductive Value where
  | null : Value
  | int : Int → Value
  | str : List Byte → Value
  | list : List Value → Value
  | dict : List (Value × Value) → Value

/-- Outcomes of the Python code paths that raise.
  * `eofError` — the explicit `raise EOFError` in `decode` when
    `_getNextByte` returned `None`;
  * `badFormat` — the explicit `raise ValueError("Byte had unexpected format.")`;
  * `intParse` — the `ValueError` raised by `int(...)` on a string that is
    not a valid integer literal (in `_getStrLength` and `_decodeInt`);
  * `noneDecode` — the `AttributeError` raised by `None.decode(...)` when a
    character-accumulating loop runs past end of buffer;
  * `unicodeDecode` — the `UnicodeDecodeError` raised by
    `byte.decode("utf-8")` on a lone byte ≥ 128;
  * `indexError` — the `IndexError` raised by `self._data[self._index]` in
    `_decodeList` when the cursor is out of range;
  * `typeError` — the `TypeError` raised by `d[key] = value` in
    `_decodeDict` when the key is unhashable (a `list` or an `OrderedDict`);
  * `outOfFuel` — embedding artifact, never a Python behaviour. -/
inductive Err where
  | eofError : Err
  | badFormat : Err
  | intParse : Err
  | noneDecode : Err
  | unicodeDecode : Err
  | indexError : Err
  | typeError : Err
  | outOfFuel : Err

mutual
/-- Structural equality of decoded values, mirroring Python `==` on the
types `decode` can produce (`None`, `int`, `bytes`, `list`, `OrderedDict`);
values of distinct kinds are never equal, matching Python. -/
def beqV : Value → Value → Bool
  | .null, .null => true
  | .int a, .int b => a == b
  | .str a, .str b => a == b
  | .list a, .list b => beqVs a b
  | .dict a, .dict b => beqKVs a b
  | _, _ => false
def beqVs : List Value → List Value → Bool
  | [], [] => true
  | a :: as, b :: bs => beqV a b && beqVs as bs
  | _, _ => false
def beqKVs : List (Value × Value) → List (Value × Value) → Bool
  | [], [] => true
  | (ka, va) :: as, (kb, vb) :: bs => beqV ka kb && (beqV va vb && beqKVs as bs)
  | _, _ => false
end

/-- Python hashability of the values `decode` can produce: `None`, `int`
and `bytes` are hashable; `list` and `OrderedDict` are not, so using one
as a dictionary key raises `TypeError`. -/
def hashable : Value → Bool
  | .list _ => false
  | .dict _ => false
  | _ => true

/-- `d[key] = value` on a Python `OrderedDict` (as an ordered association
list): if the key is present, the value at its original position is
replaced (the stored key object is kept); otherwise the pair is appended. -/
def odInsert (d : List (Value × Value)) (k : Value) (v : Value) : List (Value × Value) :=
  match d with
  | [] => [(k, v)]
  | (ka, va) :: rest => if beqV ka k then (ka, v) :: rest else (ka, va) :: odInsert rest k v

/-- Lookup in the ordered association list (the value Python `d[k]` would
report for a present key). -/
def odLookup (d : List (Value × Value)) (k : Value) : Option Value :=
  match d with
  | [] => none
  | (ka, va) :: rest => if beqV ka k then some va else odLookup rest k

/-- ASCII code points that Python `int(str)` strips as surrounding
whitespace (the ones relevant below 128). -/
def isWS (b : Byte) : Bool :=
  b == 9 || b == 10 || b == 11 || b == 12 || b == 13 ||
  b == 28 || b == 29 || b == 30 || b == 31 || b == 32

/-- ASCII decimal digit. -/
def isDigit (b : Byte) : Bool := 48 ≤ b && b ≤ 57

/-- Numeric value of an ASCII digit. -/
def digitVal (b : Byte) : Nat := b - 48

/-- Digits of an integer literal after the first one: Python allows single
underscores, but only between two digits. -/
def digitsCore : List Byte → Nat → Option Nat
  | [], acc => some acc
  | b :: rest, acc =>
    if isDigit b then digitsCore rest (acc * 10 + digitVal b)
    else if b == 95 then
      match rest with
      | c :: rest2 => if isDigit c then digitsCore rest2 (acc * 10 + digitVal c) else none
      | [] => none
    else none

/-- A nonempty run of digits (with legal underscores), as required after
the optional sign of a Python integer literal. -/
def digitsVal : List Byte → Option Nat
  | [] => none
  | b :: rest => if isDigit b then digitsCore rest (digitVal b) else none

/-- Python `int(s)` on a string of ASCII characters: optional surrounding
whitespace, an optional single sign, then a nonempty digit run; `none`
models the `ValueError` raised on anything else (e.g. the empty string). -/
def pyInt (s : List Byte) : Option Int :=
  let core := ((s.dropWhile isWS).reverse.dropWhile isWS).reverse
  match core with
  | 43 :: rest => (digitsVal rest).map (fun n => (n : Int))
  | 45 :: rest => (digitsVal rest).map (fun n => -(n : Int))
  | rest => (digitsVal rest).map (fun n => (n : Int))

/-- `_getNextByte` (src/Bdecode.py lines 65..76): if `index + 1 <= len(data)`
return the one-byte slice at the cursor and advance by one, else return
`None` and leave the cursor unchanged. -/
def getNextByte (data : List Byte) (i : Nat) : Option Byte × Nat :=
  if i + 1 ≤ data.length then (data[i]?, i + 1) else (none, i)

/-- `_decodeStr` (lines 91..100): take the slice
`data[index : index + length]` (Python slices clamp at the end of the
buffer) and add `length` to the cursor (the cursor itself is not clamped).
The length argument is produced by `_getStrLength` from a digit-led
literal, hence is never negative, so `Int.toNat` is exact. -/
def decodeStr (data : List Byte) (i : Nat) (length : Int) : List Byte × Nat :=
  ((data.drop i).take length.toNat, i + length.toNat)

/-- The loop of `_getStrLength` (lines 78..89): starting from the already
consumed first digit, append the decoded character of each byte until a
colon (byte 58) is consumed, then apply Python `int` to the accumulated
text.  A `None` byte raises `AttributeError` (`None.decode`); a byte ≥ 128
raises `UnicodeDecodeError`. -/
def strLenLoop : Nat → List Byte → Option Byte → Nat → List Byte → Except Err (Int × Nat)
  | 0, _, _, _, _ => .error .outOfFuel
  | fuel+1, data, byte, i, acc =>
    match byte with
    | none => .error .noneDecode
    | some b =>
      if b == 58 then
        match pyInt acc with
        | some n => .ok (n, i)
        | none => .error .intParse
      else if b < 128 then
        let p := getNextByte data i
        strLenLoop fuel data p.1 p.2 (acc ++ [b])
      else .error .unicodeDecode

/-- The loop of `_decodeInt` (lines 102..114): append the decoded
character of each byte until a terminator (byte 101) is consumed, then
apply Python `int` to the accumulated text.  Failure modes as in
`strLenLoop`. -/
def intLoop : Nat → List Byte → Option Byte → Nat → List Byte → Except Err (Int × Nat)
  | 0, _, _, _, _ => .error .outOfFuel
  | fuel+1, data, byte, i, acc =>
    match byte with
    | none => .error .noneDecode
    | some b =>
      if b == 101 then
        match pyInt acc with
        | some n => .ok (n, i)
        | none => .error .intParse
      else if b < 128 then
        let p := getNextByte data i
        intLoop fuel data p.1 p.2 (acc ++ [b])
      else .error .unicodeDecode

mutual
/-- `decode` (lines 40..63): consume one byte and dispatch on it, in the
source's order: `None` → `EOFError`; `i` (105) → `_decodeInt`; `l` (108) →
`_decodeList`; `d` (100) → `_decodeDict`; `e` (101) → return `None`;
an ASCII digit → `_getStrLength` then `_decodeStr`; anything else →
`ValueError`. -/
def decodeV : Nat → List Byte → Nat → Except Err (Value × Nat)
  | 0, _, _ => .error .outOfFuel
  | fuel+1, data, i =>
    match getNextByte data i with
    | (none, _) => .error .eofError
    | (some b, i1) =>
      if b == 105 then
        let p := getNextByte data i1
        match intLoop (data.length + 2) data p.1 p.2 [] with
        | .error e => .error e
        | .ok (n, i2) => .ok (.int n, i2)
      else if b == 108 then decodeListLoop fuel data i1 []
      else if b == 100 then decodeDictLoop fuel data i1 []
      else if b == 101 then .ok (.null, i1)
      else if isDigit b then
        match strLenLoop (data.length + 2) data (some b) i1 [] with
        | .error e => .error e
        | .ok (n, i2) =>
          let p := decodeStr data i2 n
          .ok (.str p.1, p.2)
      else .error .badFormat

/-- The loop of `_decodeList` (lines 116..126): `self._data[self._index]`
raises `IndexError` when the cursor is out of range; while that byte is
not the terminator `e` (101), decode an element and append it; when it is,
consume the terminator with `_getNextByte` and return the list. -/
def decodeListLoop : Nat → List Byte → Nat → List Value → Except Err (Value × Nat)
  | 0, _, _, _ => .error .outOfFuel
  | fuel+1, data, i, acc =>
    match data[i]? with
    | none => .error .indexError
    | some b =>
      if b == 101 then
        let p := getNextByte data i
        .ok (.list acc, p.2)
      else
        match decodeV fuel data i with
        | .error e => .error e
        | .ok (v, i2) => decodeListLoop fuel data i2 (acc ++ [v])

/-- The loop of `_decodeDict` (lines 128..140): while the one-byte slice
`self._data[self._index : self._index + 1]` is not the terminator `e`
(for an out-of-range cursor the slice is empty, which also enters the
loop), decode a key, decode a value and assign `d[key] = value`; when the
slice is the terminator, return the dictionary WITHOUT consuming the
terminator byte — the source has no `_getNextByte` call after this loop,
unlike `_decodeList`. -/
def decodeDictLoop : Nat → List Byte → Nat → List (Value × Value) → Except Err (Value × Nat)
  | 0, _, _, _ => .error .outOfFuel
  | fuel+1, data, i, acc =>
    if data[i]? == some 101 then
      .ok (.dict acc, i)
    else
      match decodeV fuel data i with
      | .error e => .error e
      | .ok (k, i2) =>
        match decodeV fuel data i2 with
        | .error e => .error e
        | .ok (v, i3) =>
          if hashable k then decodeDictLoop fuel data i3 (odInsert acc k v)
          else .error .typeError
end

/-- A `Bdecode` instance right after `__init__`: the bytes read from the
file and the cursor (`self._index`), which `__init__` sets to 0. -/
structure Bdecode where
  data : List Byte
  index : Nat

/-- Construction over an already-read buffer: `__init__` sets
`self._index = 0` and stores the file contents in `self._data` (the file
read itself is the external collaborator's concern). -/
def Bdecode.init (buffer : List Byte) : Bdecode :=
  { data := buffer, index := 0 }

/-- One call of `decode()` on an instance: runs the dispatch at the
instance's cursor, returning the value and the final cursor. -/
def Bdecode.run (s : Bdecode) : Except Err (Value × Nat) :=
  decodeV (2 * s.data.length + 2) s.data s.index

/-- Decode a whole buffer from offset 0, as a fresh instance would. -/
def pyDecode (data : List Byte) : Except Err (Value × Nat) :=
  Bdecode.run (Bdecode.init data)

/-- Membership of a key in the ordered association list, by Python `==`. -/
def keyMem (d : List (Value × Value)) (k : Value) : Bool :=
  d.any (fun p => beqV p.1 k)

/-- The buffer of n opening list markers (108, ASCII l) followed by their
n terminators (101, ASCII e): a list nested to depth n. -/
def mkNested (n : Nat) : List Byte :=
  List.replicate n 108 ++ List.replicate n 101

/-- The value a correct bencode decoder produces for `mkNested (n+1)`:
lists nested to depth n+1 around an empty innermost list. -/
def nestedV : Nat → Value
  | 0 => .list []
  | n+1 => .list [nestedV n]

lemma mkNested_length (n : Nat) : (mkNested n).length = 2 * n := by
  simp [mkNested]; omega

lemma mkNested_getElem_l {n k : Nat} (h : k < n) : (mkNested n)[k]? = some 108 := by
  unfold mkNested
  rw [List.getElem?_append_left (by simpa using h)]
  simp [h]

lemma mkNested_getElem_e {n k : Nat} (h1 : n ≤ k) (h2 : k < 2 * n) :
    (mkNested n)[k]? = some 101 := by
  unfold mkNested
  rw [List.getElem?_append_right (by simpa using h1)]
  simp only [List.length_replicate, List.getElem?_replicate]
  rw [if_pos (by omega)]

lemma getNextByte_in (data : List Byte) (i : Nat) (h : i < data.length) :
    getNextByte data i = (data[i]?, i + 1) := by
  unfold getNextByte
  rw [if_pos (by omega)]

lemma decodeV_step_l {fuel : Nat} {data : List Byte} {i : Nat}
    (h1 : i < data.length) (h2 : data[i]? = some 108) :
    decodeV (fuel + 1) data i = decodeListLoop fuel data (i + 1) [] := by
  rw [decodeV, getNextByte_in data i h1, h2]
  rfl

lemma decodeListLoop_term {fuel : Nat} {data : List Byte} {i : Nat} {acc : List Value}
    (h : data[i]? = some 101) :
    decodeListLoop (fuel + 1) data i acc = .ok (.list acc, i + 1) := by
  have hlen : i < data.length := by
    by_contra hc
    rw [List.getElem?_eq_none (by omega)] at h
    exact Option.noConfusion h
  rw [decodeListLoop, h, getNextByte_in data i hlen]
  rfl

lemma decodeListLoop_elem {fuel : Nat} {data : List Byte} {i i2 : Nat}
    {acc : List Value} {v : Value}
    (h : data[i]? = some 108) (hd : decodeV fuel data i = .ok (v, i2)) :
    decodeListLoop (fuel + 1) data i acc = decodeListLoop fuel data i2 (acc ++ [v]) := by
  rw [decodeListLoop, h, hd]
  rfl

/-- Decoding a nested-list buffer `mkNested N` from cursor `i`, where the
remaining input `l ... l e ... e` nests to depth `n + 1`, succeeds for any
fuel margin `m` and consumes through the matching terminators. -/
lemma decodeV_nested : ∀ n m i N : Nat, N = i + n + 1 →
    decodeV (2 * n + 4 + m) (mkNested N) i = .ok (nestedV n, i + 2 * n + 2) := by
  intro n
  induction n with
  | zero =>
    intro m i N hN
    have hf : 2 * 0 + 4 + m = (2 + m) + 1 + 1 := by omega
    rw [hf, decodeV_step_l (by rw [mkNested_length]; omega)
          (mkNested_getElem_l (by omega)),
        decodeListLoop_term (mkNested_getElem_e (by omega) (by omega))]
    rfl
  | succ n ih =>
    intro m i N hN
    have hf : 2 * (n + 1) + 4 + m = ((2 * n + 4 + m) + 1) + 1 := by omega
    rw [hf, decodeV_step_l (by rw [mkNested_length]; omega)
          (mkNested_getElem_l (by omega)),
        decodeListLoop_elem (mkNested_getElem_l (by omega))
          (ih m (i + 1) N (by omega))]
    have hf2 : 2 * n + 4 + m = (2 * n + 3 + m) + 1 := by omega
    rw [hf2, decodeListLoop_term (mkNested_getElem_e (by omega) (by omega))]
    have he : i + 1 + 2 * n + 2 + 1 = i + 2 * (n + 1) + 2 := by omega
    rw [he]
    rfl

/-- Claim C1: the spec says that after decoding a dictionary the decoder
has consumed the terminating e byte, so an enclosing loop resumes right
after the dictionary and no following element is lost.  The code does not:
`_decodeDict` returns without the `_getNextByte` call that `_decodeList`
has.  On the buffer of `d1:ad1:bi1ee1:ci2ee` (19 bytes) the decoder stops
with the cursor at offset 11 — the byte there is the inner terminator 101,
still unconsumed — and the returned tree is `{a: {b: 1}}`: the entry with
key c and value 2 that follows the nested dictionary is lost. -/
theorem dict_terminator_not_consumed :
    pyDecode [100,49,58,97,100,49,58,98,105,49,101,101,49,58,99,105,50,101,101] =
      .ok (.dict [(.str [97], .dict [(.str [98], .int 1)])], 11) ∧
    [100,49,58,97,100,49,58,98,105,49,101,101,49,58,99,105,50,101,101][11]? =
      some (101 : Byte) :=
  ⟨rfl, rfl⟩

/-- Claim C2: the spec says that when a declared string length exceeds the
bytes remaining after the colon, decoding fails with `UnexpectedEof`.  The
code instead returns a truncated value: on the buffer of `5:ab` the slice
`self._data[2:7]` clamps to the two available bytes and decode returns the
byte string `ab` with no error. -/
theorem truncated_string_silently_returned :
    pyDecode [53,58,97,98] = .ok (.str [97,98], 7) :=
  rfl

/-- Claim C3: the spec says the cursor always satisfies
`0 <= offset <= len(buffer)` and never advances past the end.  The code
violates the upper bound: `_decodeStr` executes `self._index += length`
without any bounds check, so decoding the 4-byte buffer of `5:ab` ends
with the cursor at offset 7, beyond the end of the buffer. -/
theorem cursor_exceeds_buffer_length :
    pyDecode [53,58,97,98] = .ok (.str [97,98], 7) ∧
    List.length ([53,58,97,98] : List Byte) < 7 :=
  ⟨rfl, by decide⟩

/-- Claim C4, counterexample: the claim says a top-level terminator byte
makes decode fail with an `UnexpectedTerminator` grammar error, but on the
one-byte buffer `e` the code takes its `byte == THE_END` branch and
returns `None` — a successful, not erroneous, outcome. -/
theorem top_level_terminator_no_error :
    pyDecode [101] = .ok (.null, 1) :=
  rfl

/-- Claim C4, amended: when the very first byte consumed by a top-level
`decode()` call is the terminator e, the code returns the null-like value
`None` after consuming that byte, and no error of any kind is raised. -/
theorem top_level_terminator_returns_null :
    Bdecode.run (Bdecode.init [101]) = .ok (.null, 1) ∧
    ∀ e : Err, Bdecode.run (Bdecode.init [101]) ≠ .error e :=
  ⟨rfl, fun _ h => Except.noConfusion h⟩

/-- Claim C5, counterexample: the claim (and the spec) say the buffer of
`d4:spami42ee` has a key decoding to an `Integer` and is rejected with
`InvalidKeyType`.  In fact its single entry has the byte-string key `spam`
and integer value 42, and the code decodes it successfully — there is no
key-type check anywhere in `_decodeDict`. -/
theorem spec_key_example_decodes_ok :
    pyDecode [100,52,58,115,112,97,109,105,52,50,101,101] =
      .ok (.dict [(.str [115,112,97,109], .int 42)], 11) :=
  rfl

/-- Claim C5, amended: the code never checks the type of a decoded
dictionary key.  A dictionary whose key really does decode to an integer,
such as the buffer of `di42e4:spame`, is returned as a mapping with that
integer key and no error. -/
theorem integer_key_accepted :
    pyDecode [100,105,52,50,101,52,58,115,112,97,109,101] =
      .ok (.dict [(.int 42, .str [115,112,97,109])], 11) :=
  rfl

/-- Claim C6: on the buffer of `ie` the integer body between i and e is
empty, and decode fails with the error of an invalid integer literal (the
`ValueError` that Python `int` raises on an empty string — the
`MalformedInteger` of the spec taxonomy). -/
theorem empty_integer_body_fails :
    pyDecode [105,101] = .error .intParse :=
  rfl

/-- Claim C7: on the literal buffer of `4:spam`, decode returns the byte
string `spam` and leaves the cursor at offset 6, having consumed exactly
the six bytes of the input. -/
theorem four_spam_decodes :
    pyDecode [52,58,115,112,97,109] = .ok (.str [115,112,97,109], 6) :=
  rfl

/-- Claim C8: decoding is deterministic across instances: two decoder
states over the same buffer, each with the cursor at 0 as `__init__`
leaves it, produce equal outcomes (equal trees and equal errors) from one
`decode()` call; no state is shared between the two runs (the embedding
is a pure function of the buffer and cursor alone). -/
theorem decode_deterministic (s1 s2 : Bdecode) (hdata : s1.data = s2.data)
    (h1 : s1.index = 0) (h2 : s2.index = 0) :
    Bdecode.run s1 = Bdecode.run s2 := by
  cases s1
  cases s2
  simp only at hdata h1 h2
  rw [hdata, h1, h2]

theorem decode_deterministic_witness :
    (Bdecode.init [105,52,50,101]).index = 0 ∧
    Bdecode.run (Bdecode.init [105,52,50,101]) =
      Bdecode.run (Bdecode.init [105,52,50,101]) :=
  ⟨rfl, decode_deterministic (Bdecode.init [105,52,50,101])
    (Bdecode.init [105,52,50,101]) rfl rfl rfl⟩

set_option maxRecDepth 4000 in
/-- Claim C9, counterexample: the claim says nesting beyond the configured
maximum depth fails with `NestingTooDeep`; the code configures no maximum
and has no such error: the 128-byte buffer of 64 nested lists decodes
successfully to the 64-deep value. -/
theorem deep_nesting_succeeds :
    pyDecode (mkNested 64) = .ok (nestedV 63, 128) := by
  show decodeV (2 * (mkNested 64).length + 2) (mkNested 64) 0 = _
  rw [mkNested_length]
  have h := decodeV_nested 63 128 0 64 (by omega)
  norm_num at h ⊢
  exact h

/-- Claim C9, amended: the code bounds recursion depth nowhere: for every
n, the buffer of n+1 nested lists decodes successfully (to the n+1-deep
nested empty list, consuming the whole buffer), so no depth ever produces
a `NestingTooDeep` failure; recursion depth simply grows with the input
(the stack-exhaustion risk the spec attributes to the original). -/
theorem no_nesting_limit (n : Nat) :
    pyDecode (mkNested (n + 1)) = .ok (nestedV n, 2 * n + 2) := by
  show decodeV (2 * (mkNested (n + 1)).length + 2) (mkNested (n + 1)) 0 = _
  rw [mkNested_length]
  have h := decodeV_nested n (2 * n + 2) 0 (n + 1) (by omega)
  have hf : 2 * n + 4 + (2 * n + 2) = 2 * (2 * (n + 1)) + 2 := by omega
  rw [hf] at h
  simpa using h

theorem no_nesting_limit_witness :
    pyDecode (mkNested 3) = .ok (nestedV 2, 6) :=
  no_nesting_limit 2

/-- Claim C10: assigning to an existing key of the `OrderedDict` built by
`_decodeDict` (the `d[key] = value` modelled by `odInsert`) keeps the key
sequence unchanged — the entry stays at the position of its first
insertion and stays unique — and the stored value becomes the later one;
and decoding a buffer with a duplicated dictionary key, `d1:ai1e1:bi2e1:ai3ee`,
does not fail: it returns `{a: 3, b: 2}` with key a still first. -/
theorem duplicate_key_overwrites :
    (∀ (d : List (Value × Value)) (k v : Value), keyMem d k = true →
      (odInsert d k v).map Prod.fst = d.map Prod.fst ∧
      odLookup (odInsert d k v) k = some v) ∧
    pyDecode [100,49,58,97,105,49,101,49,58,98,105,50,101,49,58,97,105,51,101,101] =
      .ok (.dict [(.str [97], .int 3), (.str [98], .int 2)], 19) := by
  refine ⟨?_, rfl⟩
  intro d k v h
  induction d with
  | nil => simp [keyMem] at h
  | cons hd tl ih =>
    obtain ⟨ka, va⟩ := hd
    by_cases hk : beqV ka k = true
    · constructor
      · simp [odInsert, hk]
      · simp [odInsert, odLookup, hk]
    · have hm : keyMem tl k = true := by
        simp only [keyMem, List.any_cons, Bool.or_eq_true] at h
        rcases h with h | h
        · exact absurd h hk
        · simpa [keyMem] using h
      have := ih hm
      constructor
      · simp only [odInsert, if_neg hk, List.map_cons]
        rw [this.1]
      · simp only [odInsert, if_neg hk, odLookup]
        exact this.2

theorem duplicate_key_overwrites_witness :
    keyMem [(Value.str [97], Value.int 1), (Value.str [98], Value.int 2)]
      (Value.str [97]) = true ∧
    (odInsert [(Value.str [97], Value.int 1), (Value.str [98], Value.int 2)]
        (Value.str [97]) (Value.int 3)).map Prod.fst =
      ([(Value.str [97], Value.int 1), (Value.str [98], Value.int 2)]).map Prod.fst ∧
    odLookup (odInsert [(Value.str [97], Value.int 1), (Value.str [98], Value.int 2)]
        (Value.str [97]) (Value.int 3)) (Value.str [97]) = some (Value.int 3) :=
  ⟨rfl, duplicate_key_overwrites.1
    [(Value.str [97], Value.int 1), (Value.str [98], Value.int 2)]
    (Value.str [97]) (Value.int 3) rfl⟩

end BEncoding
